import Mathlib

/-!
Verification development for `influxv2tovm.py`, a migrator from InfluxDB v2
to VictoriaMetrics.  The Python source is shallowly embedded below: pure
string manipulation becomes Lean functions on `String`/`List Char`, the
pandas DataFrame consumed by `__get_influxdb_lines` becomes a list of rows,
and the effectful parts of `migrate` / `__send_lines_in_chunks` become
functions producing explicit event traces (queries, HTTP posts, log and
console output), with the HTTP responses supplied by an oracle.
-/

/-! ### Python string primitives -/

/-- `replaceChar t rep l` models Python `str.replace` for a single-character
pattern `t`: every occurrence of `t` is replaced by `rep`, scanning left to
right without rescanning the replacement text. -/
def replaceChar (target : Char) (rep : List Char) : List Char → List Char
  | [] => []
  | c :: cs => (if c = target then rep else [c]) ++ replaceChar target rep cs

/-- Python `s.replace(t, rep)` for a one-character pattern `t`, on `String`. -/
def pyReplaceChar (s : String) (target : Char) (rep : String) : String :=
  ⟨replaceChar target rep.data s.data⟩

/-- Python `s.strip()`: whitespace removed from both ends. -/
def pyStrip (s : String) : String :=
  ⟨(((s.data.dropWhile Char.isWhitespace).reverse.dropWhile Char.isWhitespace).reverse)⟩

/-- Python `s.lower()`. -/
def pyLower (s : String) : String :=
  ⟨s.data.map Char.toLower⟩

/-- Python `s.startswith(c)` for a one-character test. -/
def pyStartsWith1 (s : String) (c : Char) : Bool :=
  match s.data with
  | [] => false
  | d :: _ => d = c

/-- Accumulator form of Python `s.split('\n')`. -/
def splitLinesAux : List Char → List Char → List String
  | [], acc => [⟨acc.reverse⟩]
  | c :: cs, acc =>
      if c = '\n' then (⟨acc.reverse⟩ : String) :: splitLinesAux cs []
      else splitLinesAux cs (c :: acc)

/-- Python `s.split('\n')`; in particular `"".split('\n') = [""]`. -/
def pySplitLines (s : String) : List String :=
  splitLinesAux s.data []

/-- The tag escaping of the source, applied to tag keys, tag values and field
keys: `x.replace(" ", r"\ ").replace(",", r"\,").replace("=", r"\=")`. -/
def escape_tag (s : String) : String :=
  pyReplaceChar (pyReplaceChar (pyReplaceChar s ' ' "\\ ") ',' "\\,") '=' "\\="

/-- `InfluxMigrator.escape_influx_string`:
`x.replace('"', '\\"').replace('\n', '\\n').replace('\r', '\\r')`. -/
def escape_influx_string (x : String) : String :=
  pyReplaceChar (pyReplaceChar (pyReplaceChar x '"' "\\\"") '\n' "\\n") '\r' "\\r"

/-! ### Cells and rows

A DataFrame cell is either NaN/None (`na`), a Python `str`, a Python `bool`,
or some other (numeric) value.  A numeric cell carries the text Python's
`str()` would render for it, since the source only ever uses numeric values
through `str()`. -/

inductive Cell where
  | na : Cell
  | vstr : String → Cell
  | vbool : Bool → Cell
  | vnum : String → Cell
  deriving DecidableEq, Repr

/-- Python `str(cell)`.  `str(float("nan")) = "nan"`, `str(True) = "True"`. -/
def pyStr : Cell → String
  | .na => "nan"
  | .vstr s => s
  | .vbool b => if b then "True" else "False"
  | .vnum r => r

/-- `pd.isna(val)`. -/
def isNa : Cell → Bool
  | .na => true
  | _ => false

/-- Python `val == ""`: true exactly for the empty string (comparison of a
bool or a number with `""` is `False`). -/
def eqEmptyStr : Cell → Bool
  | .vstr s => s = ""
  | _ => false

/-- One DataFrame row: the named columns (in DataFrame column order) and the
nanosecond timestamp the source computes from the `_time` column via
`int(pd.to_datetime(df["_time"].iloc[i]).timestamp() * 1e9)`. -/
structure Row where
  cols : List (String × Cell)
  timeNs : Int
  deriving Repr

/-- `df[k].iloc[i]` for row `r`; absent columns read as NaN. -/
def getCol (r : Row) (k : String) : Cell :=
  ((r.cols.find? (fun c => c.1 == k)).map Prod.snd).getD Cell.na

/-! ### The line encoder `__get_influxdb_lines` -/

/-- `InfluxMigrator.__get_tag_cols` membership test: a column is a tag column
iff its name does not start with `_` and is neither `result` nor `table`. -/
def isTagCol (k : String) : Bool :=
  !(pyStartsWith1 k '_') && k != "result" && k != "table"

/-- The body of the tag loop for one column value: skip when
`pd.isna(val) or val == ""`, else take `sval = str(val).strip()`, skip when
`sval == ""` or `sval.lower() == "nan"`, else emit `esc_key=esc_val`. -/
def tagEntry (colName : String) (val : Cell) : Option String :=
  if isNa val || eqEmptyStr val then none
  else
    let sval := pyStrip (pyStr val)
    if sval = "" || pyLower sval = "nan" then none
    else some (escape_tag colName ++ "=" ++ escape_tag sval)

/-- All surviving `key=value` tag entries of a row, in column order. -/
def rowTags (r : Row) : List String :=
  r.cols.filterMap (fun c => if isTagCol c.1 then tagEntry c.1 c.2 else none)

/-- The extra `unit_of_measurement` tag appended in pivot mode when the
`_measurement` cell is present (`pd.notna`) and `str(uom).strip() != ""`;
its value is `str(uom)` (not stripped), tag-escaped. -/
def uomTag (r : Row) : Option String :=
  let uom := getCol r "_measurement"
  if !(isNa uom) && pyStrip (pyStr uom) ≠ "" then
    some ("unit_of_measurement=" ++ escape_tag (pyStr uom))
  else none

/-- The measurement name: `str(df["domain"]) + "." + str(df["entity_id"])`
in pivot mode, else `str(df["_measurement"])`. -/
def rowMeasurement (pivot : Bool) (r : Row) : String :=
  if pivot then pyStr (getCol r "domain") ++ "." ++ pyStr (getCol r "entity_id")
  else pyStr (getCol r "_measurement")

/-- The drop test on the field value:
`pd.isna(v) or v == "" or v is None` (the `is None` disjunct is subsumed by
`pd.isna`). -/
def isDroppedVal (c : Cell) : Bool :=
  isNa c || eqEmptyStr c

/-- The field key `df["_field"].iloc[i]`, which the source uses directly as a
`str` (a non-string would fault in Python; modelled through `pyStr`, the
identity on strings). -/
def fieldKeyStr (r : Row) : String :=
  pyStr (getCol r "_field")

/-- Field-value rendering by type: strings are quoted via
`escape_influx_string`, bools render as `true`/`false`, anything else via
`str()`. -/
def escFieldVal : Cell → String
  | .vstr s => "\"" ++ escape_influx_string s ++ "\""
  | .vbool b => if b then "true" else "false"
  | c => pyStr c

/-- One iteration of the row loop of `__get_influxdb_lines`: `none` when the
row is dropped for a null/empty field value, otherwise the protocol line
`measurement[,tags] field=value timestamp`. -/
def encodeRow (pivot : Bool) (r : Row) : Option String :=
  let measurement := rowMeasurement pivot r
  let tags := rowTags r ++ (if pivot then (uomTag r).toList else [])
  let tagStr := if tags.isEmpty then "" else "," ++ String.intercalate "," tags
  if isDroppedVal (getCol r "_value") then none
  else some (measurement ++ tagStr ++ " " ++ escape_tag (fieldKeyStr r) ++ "="
      ++ escFieldVal (getCol r "_value") ++ " " ++ toString r.timeNs)

/-- The list of protocol lines produced from a chunk, in row order. -/
def rowLines (pivot : Bool) (df : List Row) : List String :=
  df.filterMap (encodeRow pivot)

/-- `InfluxMigrator.__get_influxdb_lines`: empty string for an empty chunk,
else the newline-join of the produced lines. -/
def getInfluxdbLines (pivot : Bool) (df : List Row) : String :=
  if df.isEmpty then "" else String.intercalate "\n" (rowLines pivot df)

/-! ### The batch sender `__send_lines_in_chunks`

`lines = text.split('\n')`, then `for i in range(0, len(lines), chunk_size)`
the slice `lines[i:i+chunk_size]` is rejoined with newlines and POSTed to
`{vm_url}/write?db={bucket}`.  `range(0, n, k)` enumerates
`0, k, 2k, ...`, i.e. `⌈n/k⌉` indices. -/

/-- The groups `lines[i:i+k]` for `i = 0, k, 2k, ...` below `lines.length`,
exactly as Python's `range(0, len(lines), k)` loop slices them. -/
def chunksOf (k : Nat) (l : List α) : List (List α) :=
  (List.range ((l.length + k - 1) / k)).map (fun j => (l.drop (j * k)).take k)

/-- One HTTP POST: target URL and request body. -/
structure PostRequest where
  url : String
  body : String
  deriving DecidableEq, Repr

/-- The write URL `f"{vm_url}/write?db={bucket}"`. -/
def writeUrl (vmUrl bucket : String) : String :=
  vmUrl ++ "/write?db=" ++ bucket

/-- The POSTs issued by `__send_lines_in_chunks`, in order. -/
def sendLinesInChunks (vmUrl bucket text : String) (k : Nat) : List PostRequest :=
  (chunksOf k (pySplitLines text)).map
    (fun g => ⟨writeUrl vmUrl bucket, String.intercalate "\n" g⟩)

/-! ### Date-range resolution in `migrate` -/

/-- A Python `datetime.date`. -/
structure Date where
  year : Nat
  month : Nat
  day : Nat
  deriving DecidableEq, Repr

/-- Days in a month of the proleptic Gregorian calendar. -/
def isLeapYear (y : Nat) : Bool :=
  y % 4 = 0 && (y % 100 ≠ 0 || y % 400 = 0)

def daysInMonth (y m : Nat) : Nat :=
  if m = 2 then (if isLeapYear y then 29 else 28)
  else if m = 4 || m = 6 || m = 9 || m = 11 then 30
  else 31

/-- `end_date + timedelta(days=1)` on the calendar. -/
def nextDay (d : Date) : Date :=
  if d.day < daysInMonth d.year d.month then ⟨d.year, d.month, d.day + 1⟩
  else if d.month < 12 then ⟨d.year, d.month + 1, 1⟩
  else ⟨d.year + 1, 1, 1⟩

def pad2 (n : Nat) : String :=
  if n < 10 then "0" ++ toString n else toString n

def pad4 (n : Nat) : String :=
  if n < 10 then "000" ++ toString n
  else if n < 100 then "00" ++ toString n
  else if n < 1000 then "0" ++ toString n
  else toString n

/-- `datetime.combine(d, datetime.min.time()).isoformat() + "Z"`:
the instant `d` 00:00:00 UTC. -/
def isoMidnightZ (d : Date) : String :=
  pad4 d.year ++ "-" ++ pad2 d.month ++ "-" ++ pad2 d.day ++ "T00:00:00Z"

/-- The `date_range` clause computed at the top of the pagination loop of
`InfluxMigrator.migrate` (a `datetime.date` object is always truthy, so the
Python `if start_date and end_date / elif start_date / else` matches on
presence). -/
def dateRangeClause (startDate endDate : Option Date) : String :=
  match startDate, endDate with
  | some s, some e =>
      "|> range(start: " ++ isoMidnightZ s ++ ", stop: " ++ isoMidnightZ (nextDay e) ++ ")"
  | some s, none => "|> range(start: " ++ isoMidnightZ s ++ ")"
  | none, _ => "|> range(start: -100d, stop: now())"

/-- The date-range policy as the spec states it: a half-open day interval
when both bounds are given, an open-ended range from the start day when only
the start is given, and a trailing window of a given number of days
otherwise. -/
inductive ResolvedRange where
  | halfOpenDays (startIncl stopExcl : Date)
  | openEnd (startIncl : Date)
  | trailingDays (n : Nat)
  deriving DecidableEq, Repr

/-- The resolution policy, written from the spec's three bullets: both given
→ `[start 00:00, end + 1 day 00:00)`; only start → open end; neither →
trailing 100-day window. -/
def specResolveRange (startDate endDate : Option Date) : ResolvedRange :=
  match startDate, endDate with
  | some s, some e => .halfOpenDays s (nextDay e)
  | some s, none => .openEnd s
  | none, _ => .trailingDays 100

/-- Rendering of a resolved range as a Flux range clause, start bound
inclusive at 00:00:00 UTC of its first day and stop bound exclusive at
00:00:00 UTC of the day after the last (Flux ranges are half-open). -/
def renderRange : ResolvedRange → String
  | .halfOpenDays a b => "|> range(start: " ++ isoMidnightZ a ++ ", stop: " ++ isoMidnightZ b ++ ")"
  | .openEnd a => "|> range(start: " ++ isoMidnightZ a ++ ")"
  | .trailingDays n => "|> range(start: -" ++ toString n ++ "d, stop: now())"

/-! ### The pagination loop of `migrate`, abstracted over the source

For the pagination claims the source is simulated by a function
`serve : Nat → Nat` giving the row count of the chunk returned for a given
offset.  The loop body is exactly that of `migrate`: request the chunk at
the current offset; if it is empty stop, otherwise advance the offset by
the chunk's row count and repeat.  The fuel argument is an upper bound on
the number of queries; a series of `N` rows needs at most `N + 1`. -/

/-- The pagination loop: records each (offset requested, row count served)
pair, stopping after the first empty chunk (or when fuel runs out). -/
def pageLoop (serve : Nat → Nat) : Nat → Nat → List (Nat × Nat)
  | 0, _ => []
  | fuel + 1, offset =>
      let k := serve offset
      (offset, k) :: (if k = 0 then [] else pageLoop serve fuel (offset + k))

/-- The full pagination trace for one series of `N` rows, starting — as
`migrate` does for every series — at `offset = 0`. -/
def seriesTrace (serve : Nat → Nat) (N : Nat) : List (Nat × Nat) :=
  pageLoop serve (N + 1) 0

/-- The pagination traces of a whole run: one per discovered series, each
with its own freshly reset cursor. -/
def migratePagination (measurements : List String)
    (serve : String → Nat → Nat) (N : String → Nat) : List (List (Nat × Nat)) :=
  measurements.map (fun m => seriesTrace (serve m) (N m))

/-! ### Event-trace model of `migrate`'s send path -/

/-- Observable events of a run: a chunk query for a series at an offset, an
HTTP POST of a group, an error log for a non-204 response, and console
output (dry-run printing). -/
inductive MEvent where
  | query (meas : String) (offset : Nat)
  | post (r : PostRequest)
  | logErr (code : Nat) (body : String)
  | consoleOut (s : String)
  deriving DecidableEq, Repr

def MEvent.isPost : MEvent → Bool
  | .post _ => true
  | _ => false

def MEvent.isLogErr : MEvent → Bool
  | .logErr _ _ => true
  | _ => false

/-- The events of `__send_lines_in_chunks`: each group is POSTed, and when
the response status (given by the oracle `status` on the request body) is
not 204, an error message with the status code and the response text (oracle
`respText`) is emitted.  The loop never aborts or retries. -/
def sendLinesEvents (vmUrl bucket : String) (k : Nat)
    (status : String → Nat) (respText : String → String) (text : String) : List MEvent :=
  ((chunksOf k (pySplitLines text)).map (fun g =>
    let body := String.intercalate "\n" g
    MEvent.post ⟨writeUrl vmUrl bucket, body⟩ ::
      (if status body ≠ 204 then [MEvent.logErr (status body) (respText body)] else []))).flatten

/-- The per-chunk tail of `migrate`'s loop body: encode the chunk; when the
encoded text is non-empty, either POST it in groups of 10000 lines (live
mode) or print it followed by a newline (dry-run); an empty encoding sends
and prints nothing. -/
def chunkEvents (pivot dryRun : Bool) (vmUrl bucket : String)
    (status : String → Nat) (respText : String → String) (df : List Row) : List MEvent :=
  let s := getInfluxdbLines pivot df
  if s = "" then []
  else if dryRun then [MEvent.consoleOut (s ++ "\n")]
  else sendLinesEvents vmUrl bucket 10000 status respText s

/-- The per-series loop of `migrate` at the event level: query the chunk at
the current offset, stop on an empty chunk, otherwise handle the chunk and
advance the offset by its row count. -/
def seriesEvents (handle : List Row → List MEvent) (serveRows : Nat → List Row)
    (meas : String) : Nat → Nat → List MEvent
  | 0, _ => []
  | fuel + 1, offset =>
      MEvent.query meas offset ::
        (let df := serveRows offset
         if df.isEmpty then []
         else handle df ++ seriesEvents handle serveRows meas fuel (offset + df.length))

/-- The event trace of a whole `migrate` run: for each discovered series,
the per-series pagination loop started at offset 0. -/
def migrateEvents (pivot dryRun : Bool) (vmUrl bucket : String)
    (measurements : List String) (serveRows : String → Nat → List Row)
    (status : String → Nat) (respText : String → String) (fuel : Nat) : List MEvent :=
  (measurements.map (fun m =>
    seriesEvents (chunkEvents pivot dryRun vmUrl bucket status respText)
      (serveRows m) m fuel 0)).flatten

/-! ### Escaping as a per-character transform, and unescaping -/

/-- The characters the tag escaping protects: space, comma, equals. -/
def isTagSpecial (c : Char) : Bool :=
  c = ' ' || c = ',' || c = '='

/-- Per-character view of the tag escaping: a backslash is inserted
immediately before each space, comma or equals. -/
def escTagChar (c : Char) : List Char :=
  if isTagSpecial c then ['\\', c] else [c]

/-- The documented unescape rule: scanning left to right, a backslash that
immediately precedes a space, comma or equals is removed. -/
def unescapeTagChars : List Char → List Char
  | [] => []
  | [c] => [c]
  | a :: b :: rest =>
      if a = '\\' && isTagSpecial b then b :: unescapeTagChars rest
      else a :: unescapeTagChars (b :: rest)

def unescape_tag (s : String) : String :=
  ⟨unescapeTagChars s.data⟩

/-- Every space, comma or equals in the list is immediately preceded by a
backslash that escapes it. -/
def allSpecialsEscaped : List Char → Bool
  | [] => true
  | [c] => !isTagSpecial c
  | a :: b :: rest =>
      if a = '\\' then
        (if isTagSpecial b then allSpecialsEscaped rest else allSpecialsEscaped (b :: rest))
      else !isTagSpecial a && allSpecialsEscaped (b :: rest)

theorem replaceChar_append (t : Char) (r : List Char) (a b : List Char) :
    replaceChar t r (a ++ b) = replaceChar t r a ++ replaceChar t r b := by
  induction a with
  | nil => rfl
  | cons c cs ih => simp [replaceChar, ih]

theorem escape_tag_data_eq (l : List Char) :
    replaceChar '=' ['\\', '=']
        (replaceChar ',' ['\\', ','] (replaceChar ' ' ['\\', ' '] l)) =
      (l.map escTagChar).flatten := by
  induction l with
  | nil => rfl
  | cons c cs ih =>
      simp only [replaceChar, replaceChar_append, List.map_cons, List.flatten_cons, ← ih]
      by_cases h1 : c = ' '
      · subst h1; simp [escTagChar, replaceChar, isTagSpecial]
      · by_cases h2 : c = ','
        · subst h2; simp [escTagChar, replaceChar, isTagSpecial]
        · by_cases h3 : c = '='
          · subst h3; simp [escTagChar, replaceChar, isTagSpecial]
          · simp [escTagChar, replaceChar, isTagSpecial, h1, h2, h3]

theorem escTagChar_flatten_head (l : List Char) :
    (l.map escTagChar).flatten = [] ∨
      ∃ d t, (l.map escTagChar).flatten = d :: t ∧ isTagSpecial d = false := by
  cases l with
  | nil => left; rfl
  | cons c cs =>
      right
      by_cases h : isTagSpecial c = true
      · exact ⟨'\\', c :: (cs.map escTagChar).flatten, by simp [escTagChar, h], by decide⟩
      · exact ⟨c, (cs.map escTagChar).flatten, by simp [escTagChar, h],
          by simp at h; simp [h]⟩

theorem flatten_escTagChar_nil (l : List Char) :
    (l.map escTagChar).flatten = [] → l = [] := by
  cases l with
  | nil => intro _; rfl
  | cons x xs =>
      intro h0
      exfalso
      by_cases hx : isTagSpecial x = true <;> simp [escTagChar, hx] at h0

theorem unescape_flatten (l : List Char) :
    unescapeTagChars (l.map escTagChar).flatten = l := by
  induction l with
  | nil => rfl
  | cons c cs ih =>
      by_cases h : isTagSpecial c = true
      · simp [escTagChar, h, unescapeTagChars, ih]
      · have hflat : ((c :: cs).map escTagChar).flatten = c :: (cs.map escTagChar).flatten := by
          simp [escTagChar, h]
        rw [hflat]
        rcases escTagChar_flatten_head cs with h0 | ⟨d, t, hdt, hd⟩
        · rw [h0, flatten_escTagChar_nil cs h0]
          simp [unescapeTagChars, h]
        · rw [hdt]
          have step : unescapeTagChars (c :: d :: t) = c :: unescapeTagChars (d :: t) := by
            simp [unescapeTagChars, hd]
          rw [step, ← hdt, ih]

theorem allSpecialsEscaped_flatten (l : List Char) :
    allSpecialsEscaped (l.map escTagChar).flatten = true := by
  induction l with
  | nil => rfl
  | cons c cs ih =>
      by_cases h : isTagSpecial c = true
      · simp [escTagChar, h, allSpecialsEscaped, ih]
      · have hflat : ((c :: cs).map escTagChar).flatten = c :: (cs.map escTagChar).flatten := by
          simp [escTagChar, h]
        rw [hflat]
        rcases escTagChar_flatten_head cs with h0 | ⟨d, t, hdt, hd⟩
        · rw [h0]
          simp [allSpecialsEscaped, h]
        · rw [hdt]
          by_cases hc : c = '\\'
          · subst hc
            have step : allSpecialsEscaped ('\\' :: d :: t) = allSpecialsEscaped (d :: t) := by
              simp [allSpecialsEscaped, hd]
            rw [step, ← hdt]; exact ih
          · have step : allSpecialsEscaped (c :: d :: t)
                = (!isTagSpecial c && allSpecialsEscaped (d :: t)) := by
              simp [allSpecialsEscaped, hc]
            rw [step, ← hdt]
            simp at h
            simp [h, ih]

theorem escape_tag_data (s : String) :
    (escape_tag s).data = (s.data.map escTagChar).flatten :=
  escape_tag_data_eq s.data

/-- C3: tag escaping inserts a backslash immediately before every space,
comma or equals of the input, and is reversible for every input string by
the documented unescape rule (removing a backslash that precedes a space,
comma or equals). -/
theorem tag_escaping_backslash_and_roundtrip (s : String) :
    allSpecialsEscaped (escape_tag s).data = true ∧ unescape_tag (escape_tag s) = s := by
  constructor
  · rw [escape_tag_data]; exact allSpecialsEscaped_flatten s.data
  · show (⟨unescapeTagChars (escape_tag s).data⟩ : String) = s
    rw [escape_tag_data, unescape_flatten]

/-- Per-character view of `escape_influx_string`: a double quote becomes
backslash-quote, a newline becomes backslash-`n`, a carriage return becomes
backslash-`r`, everything else is unchanged. -/
def escInfluxChar (c : Char) : List Char :=
  if c = '"' then ['\\', '"']
  else if c = '\n' then ['\\', 'n']
  else if c = '\r' then ['\\', 'r']
  else [c]

theorem escape_influx_string_data_eq (l : List Char) :
    replaceChar '\r' ['\\', 'r']
        (replaceChar '\n' ['\\', 'n'] (replaceChar '"' ['\\', '"'] l)) =
      (l.map escInfluxChar).flatten := by
  induction l with
  | nil => rfl
  | cons c cs ih =>
      simp only [replaceChar, replaceChar_append, List.map_cons, List.flatten_cons, ← ih]
      by_cases h1 : c = '"'
      · subst h1; simp [escInfluxChar, replaceChar]
      · by_cases h2 : c = '\n'
        · subst h2; simp [escInfluxChar, replaceChar]
        · by_cases h3 : c = '\r'
          · subst h3; simp [escInfluxChar, replaceChar]
          · simp [escInfluxChar, replaceChar, h1, h2, h3]

theorem escape_influx_string_data (s : String) :
    (escape_influx_string s).data = (s.data.map escInfluxChar).flatten :=
  escape_influx_string_data_eq s.data

/-- C6: field values are encoded by type — a string value is wrapped in
double quotes with internal double-quote, newline and carriage-return
characters backslash-escaped (character by character), a boolean renders as
the literal `true`/`false`, any other (numeric) value renders via its
default textual representation; in particular the field value
`hello "world"` encodes as `"hello \"world\""`. -/
theorem field_value_encoding_by_type (s r : String) (b : Bool) :
    escFieldVal (Cell.vstr s) = "\"" ++ escape_influx_string s ++ "\""
    ∧ (escape_influx_string s).data = (s.data.map escInfluxChar).flatten
    ∧ escFieldVal (Cell.vbool b) = (if b then "true" else "false")
    ∧ escFieldVal (Cell.vnum r) = r
    ∧ escFieldVal (Cell.vstr "hello \"world\"") = "\"hello \\\"world\\\"\"" :=
  ⟨rfl, escape_influx_string_data s, rfl, rfl, by decide⟩

/-! ### The pivot-mode scenario row of C2 -/

/-- The row of the pivot-mode scenario: columns
`{domain: "sensor", entity_id: "temp_kitchen", _measurement: "celsius",
_field: "value", _value: 21.5, _time: t}`, with `ts` the nanosecond
timestamp computed from `_time`. -/
def pivotScenarioRow (ts : Int) : Row :=
  { cols := [("domain", Cell.vstr "sensor"), ("entity_id", Cell.vstr "temp_kitchen"),
             ("_measurement", Cell.vstr "celsius"), ("_field", Cell.vstr "value"),
             ("_value", Cell.vnum "21.5"), ("_time", Cell.vstr "2024-01-01T00:00:00+00:00")],
    timeNs := ts }

/-- C2 counterexample: on the scenario row the encoder does NOT produce
`sensor.temp_kitchen,unit_of_measurement=celsius value=21.5 <ts>` — the
tag loop also emits `domain` and `entity_id` as tags, because neither starts
with `_` and neither is `result` or `table`. -/
theorem pivot_line_missing_domain_entity_tags :
    getInfluxdbLines true [pivotScenarioRow 1704067200000000000]
      = "sensor.temp_kitchen,domain=sensor,entity_id=temp_kitchen,unit_of_measurement=celsius value=21.5 1704067200000000000"
    ∧ getInfluxdbLines true [pivotScenarioRow 1704067200000000000]
      ≠ "sensor.temp_kitchen,unit_of_measurement=celsius value=21.5 1704067200000000000" := by
  constructor
  · decide
  · decide

/-- C2 amended: in pivot mode the scenario row encodes, for every timestamp,
to `sensor.temp_kitchen,domain=sensor,entity_id=temp_kitchen,unit_of_measurement=celsius value=21.5 <ts>`:
the measurement is `domain + "." + entity_id` and `unit_of_measurement`
carries the original measurement value, but `domain` and `entity_id` are
also emitted as ordinary tags. -/
theorem pivot_line_encoding_amended (ts : Int) :
    getInfluxdbLines true [pivotScenarioRow ts]
      = "sensor.temp_kitchen,domain=sensor,entity_id=temp_kitchen,unit_of_measurement=celsius value=21.5 "
        ++ toString ts := rfl

/-! ### Day ordinals: `nextDay` really is one calendar day later -/

def leapCount (y : Nat) : Nat := y / 4 - y / 100 + y / 400

def daysBeforeYear (y : Nat) : Nat := 365 * (y - 1) + leapCount (y - 1)

def daysBeforeMonth (y m : Nat) : Nat :=
  ((List.range (m - 1)).map (fun i => daysInMonth y (i + 1))).sum

def dayOrdinal (d : Date) : Nat :=
  daysBeforeYear d.year + daysBeforeMonth d.year d.month + d.day

def validDate (d : Date) : Bool :=
  1 ≤ d.year && 1 ≤ d.month && d.month ≤ 12 && 1 ≤ d.day && d.day ≤ daysInMonth d.year d.month

theorem leapCount_succ (y : Nat) :
    leapCount (y + 1) = leapCount y + (if isLeapYear (y + 1) = true then 1 else 0) := by
  simp only [leapCount, isLeapYear, Bool.and_eq_true, Bool.or_eq_true, decide_eq_true_eq]
  split_ifs with h
  · omega
  · omega

theorem daysBeforeMonth_twelve (y : Nat) :
    daysBeforeMonth y 12 = 334 + (if isLeapYear y = true then 1 else 0) := by
  simp [daysBeforeMonth, List.range_succ, daysInMonth]
  split_ifs with h
  · omega
  · omega

theorem daysBeforeMonth_succ (y m : Nat) (hm : 1 ≤ m) :
    daysBeforeMonth y (m + 1) = daysBeforeMonth y m + daysInMonth y m := by
  unfold daysBeforeMonth
  have h1 : m + 1 - 1 = (m - 1) + 1 := by omega
  rw [h1, List.range_succ]
  have h2 : m - 1 + 1 = m := by omega
  simp [h2]

theorem dayOrdinal_nextDay (d : Date) (hv : validDate d = true) :
    dayOrdinal (nextDay d) = dayOrdinal d + 1 := by
  obtain ⟨y, m, day⟩ := d
  unfold validDate at hv
  dsimp only at hv
  simp only [Bool.and_eq_true, decide_eq_true_eq] at hv
  obtain ⟨⟨⟨⟨hy, hm1⟩, hm2⟩, hd1⟩, hd2⟩ := hv
  unfold nextDay
  dsimp only
  split_ifs with h1 h2
  · simp only [dayOrdinal]
    omega
  · -- month rollover
    have hday : day = daysInMonth y m := by omega
    simp only [dayOrdinal]
    rw [daysBeforeMonth_succ y m hm1]
    omega
  · -- year rollover
    have hm12 : m = 12 := by omega
    have hday : day = 31 := by
      subst hm12
      simp [daysInMonth] at hd2 h1 ⊢
      omega
    subst hm12 hday
    simp only [dayOrdinal, daysBeforeMonth]
    have h0 : (1 : Nat) - 1 = 0 := rfl
    rw [h0]
    simp only [List.range_zero, List.map_nil, List.sum_nil]
    have h12 : daysBeforeMonth y 12 = 334 + (if isLeapYear y = true then 1 else 0) :=
      daysBeforeMonth_twelve y
    have hy1 : daysBeforeYear (y + 1) = 365 * y + leapCount y := by
      simp [daysBeforeYear]
    have hy0 : daysBeforeYear y = 365 * (y - 1) + leapCount (y - 1) := rfl
    have hlc : leapCount y = leapCount (y - 1) + (if isLeapYear y = true then 1 else 0) := by
      have := leapCount_succ (y - 1)
      have hyy : y - 1 + 1 = y := by omega
      rwa [hyy] at this
    rw [hy1, hy0]
    unfold daysBeforeMonth at h12
    rw [show (12 : Nat) - 1 = 11 from rfl] at h12
    rw [h12]
    split_ifs at hlc ⊢ <;> omega

/-- C4: the date range of every chunk query resolves as the spec's policy:
both dates given gives the half-open day interval from the start day at
00:00:00 UTC up to (exclusively) the day after the end day at 00:00:00 UTC,
only a start date gives an open-ended range from the start day, and no dates
gives the trailing 100-day window; moreover on valid dates `nextDay` moves
the proleptic Gregorian day ordinal up by exactly one. -/
theorem date_range_resolution (s e : Date) (sd ed : Option Date) :
    dateRangeClause sd ed = renderRange (specResolveRange sd ed)
    ∧ specResolveRange (some s) (some e) = ResolvedRange.halfOpenDays s (nextDay e)
    ∧ specResolveRange (some s) none = ResolvedRange.openEnd s
    ∧ specResolveRange none none = ResolvedRange.trailingDays 100
    ∧ (validDate e = true → dayOrdinal (nextDay e) = dayOrdinal e + 1) := by
  refine ⟨?_, rfl, rfl, rfl, dayOrdinal_nextDay e⟩
  cases sd <;> cases ed <;> rfl

/-- C4 witness: the resolution at the concrete dates 2024-02-28 and
2024-12-31 (a leap-February day and a year rollover). -/
theorem date_range_resolution_witness :
    validDate ⟨2024, 12, 31⟩ = true
    ∧ dayOrdinal (nextDay ⟨2024, 12, 31⟩) = dayOrdinal (⟨2024, 12, 31⟩ : Date) + 1
    ∧ dateRangeClause (some ⟨2024, 2, 28⟩) (some ⟨2024, 12, 31⟩)
      = renderRange (specResolveRange (some ⟨2024, 2, 28⟩) (some ⟨2024, 12, 31⟩)) :=
  ⟨by decide,
   (date_range_resolution ⟨2024, 2, 28⟩ ⟨2024, 12, 31⟩ none none).2.2.2.2 (by decide),
   (date_range_resolution ⟨2024, 2, 28⟩ ⟨2024, 12, 31⟩ (some ⟨2024, 2, 28⟩)
      (some ⟨2024, 12, 31⟩)).1⟩

/-- C10: when an end date is given without a start date, `migrate` falls
into the default branch — the clause is the trailing 100-day window and the
end date has no effect. -/
theorem end_without_start_uses_default_window (e : Date) (ed : Option Date) :
    dateRangeClause none (some e) = "|> range(start: -100d, stop: now())"
    ∧ dateRangeClause none ed = dateRangeClause none none := by
  constructor
  · rfl
  · cases ed <;> rfl

/-! ### Properties of the batch grouping -/

theorem chunksOf_nil (k : Nat) : chunksOf k ([] : List α) = [] := by
  have h : (([] : List α).length + k - 1) / k = 0 := by
    rcases Nat.eq_zero_or_pos k with h | h
    · subst h; simp
    · apply Nat.div_eq_of_lt; simp; omega
  unfold chunksOf
  rw [h]
  rfl

theorem chunksOf_cons (k : Nat) (hk : 0 < k) (l : List α) (hl : l ≠ []) :
    chunksOf k l = l.take k :: chunksOf k (l.drop k) := by
  have hn : 1 ≤ l.length := List.length_pos.mpr hl
  have hm : (l.length + k - 1) / k = (l.length - 1) / k + 1 := by
    have h1 : l.length + k - 1 = (l.length - 1) + k := by omega
    rw [h1, Nat.add_div_right _ hk]
  have hm2 : ((l.drop k).length + k - 1) / k = (l.length - 1) / k := by
    rw [List.length_drop]
    rcases le_or_lt k l.length with h | h
    · congr 1; omega
    · rw [Nat.div_eq_of_lt (by omega), Nat.div_eq_of_lt (by omega)]
  unfold chunksOf
  rw [hm, List.range_succ_eq_map, List.map_cons]
  congr 1
  · simp
  · rw [hm2, List.map_map]
    apply List.map_congr_left
    intro j _
    simp only [Function.comp_apply]
    rw [List.drop_drop]
    congr 2
    rw [Nat.succ_mul]
    omega

theorem chunksOf_flatten_aux (k : Nat) (hk : 0 < k) :
    ∀ (n : Nat) (l : List α), l.length ≤ n → (chunksOf k l).flatten = l := by
  intro n
  induction n with
  | zero =>
      intro l h
      have : l = [] := by
        cases l with
        | nil => rfl
        | cons a t => simp at h
      subst this
      simp [chunksOf_nil]
  | succ n ih =>
      intro l h
      rcases eq_or_ne l [] with rfl | hne
      · simp [chunksOf_nil]
      · rw [chunksOf_cons k hk l hne, List.flatten_cons,
          ih (l.drop k) (by rw [List.length_drop]; have := List.length_pos.mpr hne; omega)]
        exact List.take_append_drop k l

theorem chunksOf_flatten (k : Nat) (hk : 0 < k) (l : List α) :
    (chunksOf k l).flatten = l :=
  chunksOf_flatten_aux k hk l.length l le_rfl

theorem chunksOf_size_le (k : Nat) (l : List α) :
    ∀ g ∈ chunksOf k l, g.length ≤ k := by
  intro g hg
  obtain ⟨j, _, rfl⟩ := List.mem_map.mp hg
  simp [List.length_take]

theorem chunksOf_ne_nil (k : Nat) (hk : 0 < k) (l : List α) :
    ∀ g ∈ chunksOf k l, g ≠ [] := by
  intro g hg
  obtain ⟨j, hj, rfl⟩ := List.mem_map.mp hg
  rw [List.mem_range] at hj
  have h1 : (j + 1) * k ≤ l.length + k - 1 :=
    (Nat.le_div_iff_mul_le hk).mp hj
  have h2 : j * k + k ≤ l.length + k - 1 := by
    rwa [Nat.succ_mul] at h1
  have h3 : j * k < l.length := by omega
  have : ((l.drop (j * k)).take k).length = min k (l.length - j * k) := by
    simp [List.length_take, List.length_drop]
  intro hnil
  rw [hnil] at this
  simp at this
  omega

theorem chunksOf_map_length (k : Nat) (l : List α) :
    (chunksOf k l).map List.length
      = (List.range ((l.length + k - 1) / k)).map (fun j => min k (l.length - j * k)) := by
  unfold chunksOf
  rw [List.map_map]
  apply List.map_congr_left
  intro j _
  simp [List.length_take, List.length_drop]

theorem chunk_lengths_25000 (lines : List String) (h : lines.length = 25000) :
    (chunksOf 10000 lines).map List.length = [10000, 10000, 5000] := by
  rw [chunksOf_map_length, h]
  decide

/-- C5: the batch sender splits the encoded text by newline into groups of
at most `k` lines which together are exactly the split lines, issues exactly
one POST per group, each against `<vm_url>/write?db=<bucket>` with the group
rejoined by newlines as body; and 25000 lines with `k = 10000` give exactly
the group sizes 10000, 10000, 5000. -/
theorem batch_sender_grouping (vmUrl bucket text : String) (k : Nat) (hk : 0 < k) :
    (sendLinesInChunks vmUrl bucket text k).length = (chunksOf k (pySplitLines text)).length
    ∧ (∀ g ∈ chunksOf k (pySplitLines text), g.length ≤ k)
    ∧ (chunksOf k (pySplitLines text)).flatten = pySplitLines text
    ∧ (∀ r ∈ sendLinesInChunks vmUrl bucket text k, r.url = writeUrl vmUrl bucket)
    ∧ sendLinesInChunks vmUrl bucket text k
        = (chunksOf k (pySplitLines text)).map
            (fun g => ⟨writeUrl vmUrl bucket, String.intercalate "\n" g⟩)
    ∧ (∀ lines : List String, lines.length = 25000 →
        (chunksOf 10000 lines).map List.length = [10000, 10000, 5000]) := by
  refine ⟨by simp [sendLinesInChunks], chunksOf_size_le k _, chunksOf_flatten k hk _,
    ?_, rfl, chunk_lengths_25000⟩
  intro r hr
  obtain ⟨g, _, rfl⟩ := List.mem_map.mp hr
  rfl

/-- C5 witness: the hypotheses hold at `k = 10000`, and a concrete input of
25000 lines is grouped as 10000/10000/5000. -/
theorem batch_sender_grouping_witness :
    0 < 10000
    ∧ (chunksOf 10000 (List.replicate 25000 "x")).map List.length
        = [10000, 10000, 5000] :=
  ⟨by decide,
   (batch_sender_grouping "u" "b" "a" 10000 (by decide)).2.2.2.2.2
     (List.replicate 25000 "x") (by rw [List.length_replicate])⟩

/-! ### Properties of the pagination loop -/

theorem range'_glue (s m n : Nat) :
    List.range' s m ++ List.range' (s + m) n = List.range' s (m + n) := by
  have h := List.range'_append s m n 1
  rw [one_mul] at h
  rw [Nat.add_comm n m] at h
  exact h

theorem pageLoop_props (serve : Nat → Nat) (N : Nat)
    (h1 : ∀ o, o < N → 1 ≤ serve o) (h2 : ∀ o, serve o ≤ N - o) :
    ∀ (fuel offset : Nat), offset ≤ N → N - offset < fuel →
      (((pageLoop serve fuel offset).map Prod.snd).sum = N - offset)
      ∧ (pageLoop serve fuel offset).getLast? = some (N, 0)
      ∧ (∀ p ∈ (pageLoop serve fuel offset).dropLast, 0 < p.2)
      ∧ ((pageLoop serve fuel offset).map (fun p => List.range' p.1 p.2)).flatten
          = List.range' offset (N - offset)
      ∧ (∀ i (hi : i < (pageLoop serve fuel offset).length),
          ((pageLoop serve fuel offset).get ⟨i, hi⟩).1
            = offset + (((pageLoop serve fuel offset).take i).map Prod.snd).sum) := by
  intro fuel
  induction fuel with
  | zero => intro offset _ h'; omega
  | succ fuel ih =>
      intro offset hoff hfuel
      by_cases hk : serve offset = 0
      · have hoN : offset = N := by
          by_contra hne
          have := h1 offset (by omega)
          omega
        subst hoN
        have hloop : pageLoop serve (fuel + 1) offset = [(offset, 0)] := by
          simp [pageLoop, hk]
        rw [hloop]
        refine ⟨by simp, by simp, by simp, by simp, ?_⟩
        intro i hi
        have : i = 0 := by simpa using Nat.lt_one_iff.mp (by simpa using hi)
        subst this
        simp
      · have hk1 : 1 ≤ serve offset := Nat.one_le_iff_ne_zero.mpr hk
        have hkN : serve offset ≤ N - offset := h2 offset
        obtain ⟨A, B, C, D, E⟩ := ih (offset + serve offset) (by omega) (by omega)
        have hloop : pageLoop serve (fuel + 1) offset
            = (offset, serve offset) :: pageLoop serve fuel (offset + serve offset) := by
          simp [pageLoop, hk]
        rw [hloop]
        have hne : pageLoop serve fuel (offset + serve offset) ≠ [] := by
          intro h0
          rw [h0] at B
          simp at B
        refine ⟨?_, ?_, ?_, ?_, ?_⟩
        · simp only [List.map_cons, List.sum_cons, A]
          omega
        · cases hpl : pageLoop serve fuel (offset + serve offset) with
          | nil => exact absurd hpl hne
          | cons b bs =>
              rw [List.getLast?_cons_cons, ← hpl]
              exact B
        · cases hpl : pageLoop serve fuel (offset + serve offset) with
          | nil => exact absurd hpl hne
          | cons b bs =>
              intro p hp
              have hdl : ((offset, serve offset) :: b :: bs).dropLast
                  = (offset, serve offset) :: (b :: bs).dropLast := by
                simp [List.dropLast]
              rw [hdl] at hp
              rcases List.mem_cons.mp hp with rfl | hp
              · exact hk1
              · apply C
                rw [hpl]
                exact hp
        · simp only [List.map_cons, List.flatten_cons, D]
          rw [show N - offset = serve offset + (N - (offset + serve offset)) from by omega]
          exact range'_glue offset (serve offset) (N - (offset + serve offset))
        · intro i hi
          cases i with
          | zero => simp
          | succ i =>
              simp only [List.get, List.take, List.map_cons, List.sum_cons]
              rw [E i (by simpa using hi)]
              omega

/-- C1: for a simulated series of `N` rows (each non-empty chunk serves at
least one row, at most `chunksize` rows, and never more rows than remain),
the offsets requested by the pagination loop are exactly the running prefix
sums of the served chunk row counts, the loop terminates exactly at the
first empty chunk, the served chunks cover the `N` rows exactly once
(their half-open offset ranges concatenate to `0, ..., N-1`), and every
series of a run starts with its cursor reset to offset `0`. -/
theorem pagination_offsets_cover_series (chunksize N : Nat) (serve : Nat → Nat)
    (hcs : 0 < chunksize)
    (hbound : ∀ o, serve o ≤ chunksize)
    (h1 : ∀ o, o < N → 1 ≤ serve o)
    (h2 : ∀ o, serve o ≤ N - o)
    (measurements : List String) (serves : String → Nat → Nat) (Ns : String → Nat) :
    (∀ i (hi : i < (seriesTrace serve N).length),
        ((seriesTrace serve N).get ⟨i, hi⟩).1
          = (((seriesTrace serve N).take i).map Prod.snd).sum)
    ∧ (seriesTrace serve N).getLast? = some (N, 0)
    ∧ (∀ p ∈ (seriesTrace serve N).dropLast, 0 < p.2)
    ∧ ((seriesTrace serve N).map Prod.snd).sum = N
    ∧ ((seriesTrace serve N).map (fun p => List.range' p.1 p.2)).flatten = List.range N
    ∧ (∀ tr ∈ migratePagination measurements serves Ns, tr.head?.map Prod.fst = some 0) := by
  obtain ⟨A, B, C, D, E⟩ := pageLoop_props serve N h1 h2 (N + 1) 0 (by omega) (by omega)
  refine ⟨?_, B, C, by simpa using A, ?_, ?_⟩
  · intro i hi
    simpa using E i hi
  · rw [List.range_eq_range']
    simpa using D
  · intro tr htr
    obtain ⟨m, _, rfl⟩ := List.mem_map.mp htr
    simp [seriesTrace, pageLoop]

/-- C1 witness: a series of 7 rows served in chunks of at most 3 rows — the
hypotheses hold, the trace's chunk sizes sum to 7 and the final request
returns the empty chunk at offset 7. -/
theorem pagination_offsets_cover_series_witness :
    ((seriesTrace (fun o => min 3 (7 - o)) 7).map Prod.snd).sum = 7
    ∧ (seriesTrace (fun o => min 3 (7 - o)) 7).getLast? = some (7, 0) := by
  have h := pagination_offsets_cover_series 3 7 (fun o => min 3 (7 - o)) (by decide)
    (fun o => Nat.min_le_left _ _)
    (fun o ho => by show 1 ≤ min 3 (7 - o); rw [Nat.min_def]; split <;> omega)
    (fun o => Nat.min_le_right _ _) ["m"] (fun _ o => min 3 (7 - o)) (fun _ => 7)
  exact ⟨h.2.2.2.1, h.2.1⟩

/-- C7: rows with a null/empty field value contribute no line, so the number
of produced lines is at most the number of input rows; an empty chunk, or a
chunk whose rows are all dropped, encodes to the empty string, and an empty
encoding makes the caller send and print nothing (no events at all), rather
than fail. -/
theorem dropped_rows_and_empty_batch (pivot dryRun : Bool) (vmUrl bucket : String)
    (status : String → Nat) (respText : String → String) (df : List Row) :
    (rowLines pivot df).length ≤ df.length
    ∧ (∀ r ∈ df, isDroppedVal (getCol r "_value") = true → encodeRow pivot r = none)
    ∧ (df = [] → getInfluxdbLines pivot df = "")
    ∧ ((∀ r ∈ df, isDroppedVal (getCol r "_value") = true) → getInfluxdbLines pivot df = "")
    ∧ (getInfluxdbLines pivot df = "" →
        chunkEvents pivot dryRun vmUrl bucket status respText df = []) := by
  refine ⟨List.length_filterMap_le _ _, ?_, ?_, ?_, ?_⟩
  · intro r _ h
    simp [encodeRow, h]
  · rintro rfl
    rfl
  · intro hall
    have hrl : rowLines pivot df = [] := by
      rw [rowLines, List.filterMap_eq_nil_iff]
      intro r hr
      simp [encodeRow, hall r hr]
    unfold getInfluxdbLines
    rw [hrl]
    split <;> rfl
  · intro h
    simp [chunkEvents, h]

/-- A row whose `_value` is NaN — dropped by the encoder. -/
def droppedRow : Row :=
  ⟨[("_measurement", Cell.vstr "m"), ("_field", Cell.vstr "f"), ("_value", Cell.na)], 0⟩

/-- C7 witness: a one-row chunk whose only row is dropped encodes to the
empty string, and the caller then produces no events. -/
theorem dropped_rows_and_empty_batch_witness :
    getInfluxdbLines false [droppedRow] = ""
    ∧ chunkEvents false false "u" "b" (fun _ => 204) (fun _ => "") [droppedRow] = [] := by
  have h := dropped_rows_and_empty_batch false false "u" "b"
    (fun _ => 204) (fun _ => "") [droppedRow]
  have he : getInfluxdbLines false [droppedRow] = "" := h.2.2.2.1 (by decide)
  exact ⟨he, h.2.2.2.2 he⟩

/-! ### Filtering event traces -/

def postsOf (evs : List MEvent) : List MEvent :=
  evs.filter MEvent.isPost

def stripLogs (evs : List MEvent) : List MEvent :=
  evs.filter (fun e => !e.isLogErr)

theorem stripLogs_append (a b : List MEvent) :
    stripLogs (a ++ b) = stripLogs a ++ stripLogs b := by
  simp [stripLogs]

theorem filter_sendLinesEvents (p : MEvent → Bool)
    (hpost : ∀ r, p (MEvent.post r) = true)
    (hlog : ∀ c b, p (MEvent.logErr c b) = false)
    (vmUrl bucket : String) (k : Nat) (status : String → Nat)
    (respText : String → String) (text : String) :
    (sendLinesEvents vmUrl bucket k status respText text).filter p
      = (sendLinesInChunks vmUrl bucket text k).map MEvent.post := by
  unfold sendLinesEvents sendLinesInChunks
  rw [List.map_map]
  generalize chunksOf k (pySplitLines text) = L
  induction L with
  | nil => rfl
  | cons g gs ih =>
      simp only [List.map_cons, List.flatten_cons, List.filter_append, ih]
      by_cases h : status (String.intercalate "\n" g) = 204
      · simp [List.filter_cons, h, hpost]
      · simp [List.filter_cons, h, hpost, hlog]

theorem postsOf_sendLinesEvents (vmUrl bucket : String) (k : Nat)
    (status : String → Nat) (respText : String → String) (text : String) :
    postsOf (sendLinesEvents vmUrl bucket k status respText text)
      = (sendLinesInChunks vmUrl bucket text k).map MEvent.post :=
  filter_sendLinesEvents MEvent.isPost (fun _ => rfl) (fun _ _ => rfl) vmUrl bucket k
    status respText text

theorem stripLogs_sendLinesEvents (vmUrl bucket : String) (k : Nat)
    (status : String → Nat) (respText : String → String) (text : String) :
    stripLogs (sendLinesEvents vmUrl bucket k status respText text)
      = (sendLinesInChunks vmUrl bucket text k).map MEvent.post :=
  filter_sendLinesEvents (fun e => !e.isLogErr) (fun _ => rfl) (fun _ _ => rfl)
    vmUrl bucket k status respText text

theorem stripLogs_chunkEvents (pivot dryRun : Bool) (vmUrl bucket : String)
    (status status' : String → Nat) (respText respText' : String → String)
    (df : List Row) :
    stripLogs (chunkEvents pivot dryRun vmUrl bucket status respText df)
      = stripLogs (chunkEvents pivot dryRun vmUrl bucket status' respText' df) := by
  unfold chunkEvents
  by_cases hs : getInfluxdbLines pivot df = ""
  · simp [hs]
  · by_cases hd : dryRun = true
    · simp [hs, hd]
    · simp only [hs, hd, Bool.false_eq_true, if_false, ite_false]
      rw [stripLogs_sendLinesEvents, stripLogs_sendLinesEvents]

theorem stripLogs_cons_query (m : String) (o : Nat) (x y : List MEvent)
    (hxy : stripLogs x = stripLogs y) :
    stripLogs (MEvent.query m o :: x) = stripLogs (MEvent.query m o :: y) := by
  unfold stripLogs at hxy ⊢
  rw [List.filter_cons, List.filter_cons]
  have h : (!(MEvent.query m o).isLogErr) = true := rfl
  rw [h]
  simp [hxy]

theorem stripLogs_seriesEvents (pivot dryRun : Bool) (vmUrl bucket : String)
    (status status' : String → Nat) (respText respText' : String → String)
    (sr : Nat → List Row) (m : String) :
    ∀ (fuel offset : Nat),
      stripLogs (seriesEvents (chunkEvents pivot dryRun vmUrl bucket status respText)
          sr m fuel offset)
        = stripLogs (seriesEvents (chunkEvents pivot dryRun vmUrl bucket status' respText')
            sr m fuel offset) := by
  intro fuel
  induction fuel with
  | zero => intro _; rfl
  | succ fuel ih =>
      intro offset
      simp only [seriesEvents]
      apply stripLogs_cons_query
      by_cases hemp : (sr offset).isEmpty
      · rw [if_pos hemp, if_pos hemp]
      · rw [if_neg hemp, if_neg hemp, stripLogs_append, stripLogs_append,
          stripLogs_chunkEvents pivot dryRun vmUrl bucket status status' respText respText',
          ih]

theorem stripLogs_migrateEvents (pivot dryRun : Bool) (vmUrl bucket : String)
    (measurements : List String) (serveRows : String → Nat → List Row)
    (status status' : String → Nat) (respText respText' : String → String) (fuel : Nat) :
    stripLogs (migrateEvents pivot dryRun vmUrl bucket measurements serveRows
        status respText fuel)
      = stripLogs (migrateEvents pivot dryRun vmUrl bucket measurements serveRows
          status' respText' fuel) := by
  unfold migrateEvents
  induction measurements with
  | nil => rfl
  | cons m ms ih =>
      simp only [List.map_cons, List.flatten_cons]
      rw [stripLogs_append, stripLogs_append, ih,
        stripLogs_seriesEvents pivot dryRun vmUrl bucket status status' respText respText'
          (serveRows m) m fuel 0]

/-- C8: every group is POSTed exactly once whatever the response statuses
are; a non-204 status for a group produces a log event carrying the status
code and response body; and the whole run's non-log events (queries, posts,
console output) are identical under any two response oracles — nothing is
aborted, re-encoded or retried. -/
theorem non_success_response_logged_run_continues (vmUrl bucket text : String) (k : Nat)
    (status status' : String → Nat) (respText respText' : String → String)
    (pivot dryRun : Bool) (measurements : List String)
    (serveRows : String → Nat → List Row) (fuel : Nat) :
    postsOf (sendLinesEvents vmUrl bucket k status respText text)
      = (sendLinesInChunks vmUrl bucket text k).map MEvent.post
    ∧ (∀ g ∈ chunksOf k (pySplitLines text),
        status (String.intercalate "\n" g) ≠ 204 →
          MEvent.logErr (status (String.intercalate "\n" g))
              (respText (String.intercalate "\n" g))
            ∈ sendLinesEvents vmUrl bucket k status respText text)
    ∧ stripLogs (migrateEvents pivot dryRun vmUrl bucket measurements serveRows
          status respText fuel)
        = stripLogs (migrateEvents pivot dryRun vmUrl bucket measurements serveRows
            status' respText' fuel) := by
  refine ⟨postsOf_sendLinesEvents vmUrl bucket k status respText text, ?_,
    stripLogs_migrateEvents pivot dryRun vmUrl bucket measurements serveRows
      status status' respText respText' fuel⟩
  intro g hg hstat
  unfold sendLinesEvents
  apply List.mem_flatten.mpr
  refine ⟨_, List.mem_map_of_mem _ hg, ?_⟩
  simp only [hstat, if_pos]
  simp [hstat]

theorem chunkEvents_dry_run (pivot : Bool) (vmUrl bucket : String)
    (status : String → Nat) (respText : String → String) (df : List Row) :
    chunkEvents pivot true vmUrl bucket status respText df
      = if getInfluxdbLines pivot df = "" then []
        else [MEvent.consoleOut (getInfluxdbLines pivot df ++ "\n")] := by
  unfold chunkEvents
  by_cases hs : getInfluxdbLines pivot df = ""
  · simp [hs]
  · simp [hs]

theorem seriesEvents_dry_run_no_post (pivot : Bool) (vmUrl bucket : String)
    (status : String → Nat) (respText : String → String)
    (sr : Nat → List Row) (m : String) :
    ∀ (fuel offset : Nat),
      ∀ e ∈ seriesEvents (chunkEvents pivot true vmUrl bucket status respText)
          sr m fuel offset, e.isPost = false := by
  intro fuel
  induction fuel with
  | zero => intro offset e he; simp [seriesEvents] at he
  | succ fuel ih =>
      intro offset e he
      simp only [seriesEvents] at he
      rcases List.mem_cons.mp he with rfl | he
      · rfl
      · by_cases hemp : (sr offset).isEmpty
        · rw [if_pos hemp] at he
          simp at he
        · rw [if_neg hemp] at he
          rcases List.mem_append.mp he with h | h
          · rw [chunkEvents_dry_run] at h
            by_cases hs : getInfluxdbLines pivot (sr offset) = ""
            · rw [if_pos hs] at h
              simp at h
            · rw [if_neg hs] at h
              rcases List.mem_singleton.mp h with rfl
              rfl
          · exact ih _ e h

/-- C9: with dry-run enabled, no event of the whole migration run is an
HTTP POST — the write collaborator is never invoked — and each chunk's
encoded text goes to the console instead. -/
theorem dry_run_never_posts (pivot dryRun : Bool) (vmUrl bucket : String)
    (measurements : List String) (serveRows : String → Nat → List Row)
    (status : String → Nat) (respText : String → String) (fuel : Nat)
    (hdry : dryRun = true) :
    (∀ e ∈ migrateEvents pivot dryRun vmUrl bucket measurements serveRows
        status respText fuel, e.isPost = false)
    ∧ (∀ df : List Row,
        chunkEvents pivot dryRun vmUrl bucket status respText df
          = if getInfluxdbLines pivot df = "" then []
            else [MEvent.consoleOut (getInfluxdbLines pivot df ++ "\n")]) := by
  subst hdry
  constructor
  · intro e he
    unfold migrateEvents at he
    obtain ⟨evs, hevs, hein⟩ := List.mem_flatten.mp he
    obtain ⟨m, _, rfl⟩ := List.mem_map.mp hevs
    exact seriesEvents_dry_run_no_post pivot vmUrl bucket status respText (serveRows m) m fuel 0 e hein
  · intro df
    exact chunkEvents_dry_run pivot vmUrl bucket status respText df

/-- C8 witness: on a three-line text split into groups of two with an oracle
answering 500 to every write, the posts are exactly the two groups, and the
failure log for the first group is present in the trace. -/
theorem non_success_response_logged_run_continues_witness :
    postsOf (sendLinesEvents "u" "b" 2 (fun _ => 500) (fun _ => "oops") "a\nb\nc")
      = (sendLinesInChunks "u" "b" "a\nb\nc" 2).map MEvent.post
    ∧ MEvent.logErr 500 "oops"
        ∈ sendLinesEvents "u" "b" 2 (fun _ => 500) (fun _ => "oops") "a\nb\nc" := by
  have h := non_success_response_logged_run_continues "u" "b" "a\nb\nc" 2
    (fun _ => 500) (fun _ => 204) (fun _ => "oops") (fun _ => "")
    false false [] (fun _ _ => []) 0
  refine ⟨h.1, ?_⟩
  have hm := h.2.1 ["a", "b"] (by decide) (by decide)
  simpa using hm

/-- The non-pivot scenario row `{_measurement: "temp", room: "kitchen",
_field: "value", _value: 21.5}` at 2024-01-01T00:00:00Z. -/
def plainRow : Row :=
  ⟨[("_measurement", Cell.vstr "temp"), ("room", Cell.vstr "kitchen"),
    ("_field", Cell.vstr "value"), ("_value", Cell.vnum "21.5")],
   1704067200000000000⟩

/-- C9 witness: with dry-run on, a non-empty chunk produces only console
output. -/
theorem dry_run_never_posts_witness :
    chunkEvents false true "u" "b" (fun _ => 204) (fun _ => "") [plainRow]
      = if getInfluxdbLines false [plainRow] = "" then []
        else [MEvent.consoleOut (getInfluxdbLines false [plainRow] ++ "\n")] :=
  (dry_run_never_posts false true "u" "b" [] (fun _ _ => []) (fun _ => 204)
    (fun _ => "") 0 rfl).2 [plainRow]
